import Mathlib

/-!
Shallow embedding of the `genpass` Go package (files `genpass.go` and
`collision.go`) and proofs about it.

Modelling conventions:
* Go strings (and `[]rune` slices) are modelled as `List Char`; a Go rune is a
  Unicode code point, as is a Lean `Char`, and rune comparison is code-point
  comparison, which is `≤` on `Char`.
* `slices.Sort` sorts a `[]rune` into ascending order; since the order on
  runes is total, the sorted permutation of a list is unique, so any sorting
  function models it.  We use `List.mergeSort` with `fun a b => a ≤ b`.
* Non-negative `*big.Int` values are modelled as `Nat`.  All inputs in the
  package are non-negative (second counts and password-space sizes).
* `crypto/rand.Int(rand.Reader, n)` returns a uniformly random integer in
  `[0, n)` and panics when `n ≤ 0`.  Randomness is modelled by an explicit
  oracle `Nat → Nat`; draw `i` of a run is `oracle i % n`, which ranges over
  exactly `[0, n)`; the panic on an empty charset is modelled by `Option`.
-/

namespace Genpass

/-- Model of Go `slices.Sort` on a `[]rune`: the ascending sort of the list
(by code point). -/
def slicesSort (chars : List Char) : List Char :=
  chars.mergeSort (fun a b => a ≤ b)

/-- Embedding of `NormalizeCharset` (genpass.go): converts the charset to a
rune slice, sorts it with `slices.Sort`, and converts back.  Note that the
source performs no deduplication, only the sort. -/
def NormalizeCharset (charset : List Char) : List Char :=
  slicesSort charset

/-- Embedding of `Generate` (genpass.go): sorts the charset, then draws
`length` random indices below the charset size and picks those characters.
`rand.Int` panics when the charset is empty (its bound must be positive);
since the draw happens inside the loop, the panic is reached exactly when
`length ≥ 1` and the charset is empty, modelled as `none`. -/
def Generate (charset : List Char) (length : Nat) (oracle : Nat → Nat) : Option (List Char) :=
  let chars := slicesSort charset
  if length = 0 then
    some []
  else if chars.length = 0 then
    none
  else
    some ((List.range length).map fun i => chars.getD (oracle i % chars.length) ' ')

/-- The exact value of the `float64` constant `2 * lnFactor` computed by
`GetCollisionSeconds` (collision.go), where
`lnFactor := math.Log(1 / (1 - 0.01))`, written as the dyadic rational
`lnFactorTimes2Num / 2 ^ 56`.  The IEEE-754 double-precision evaluation of
`2 * log(1 / (1 - 0.01))` yields exactly `1448406041752887 * 2 ^ (-56)`
(about `0.0201006717`). -/
def lnFactorTimes2Num : Nat := 1448406041752887

/-- Denominator of the dyadic constant [`lnFactorTimes2Num`]. -/
def lnFactorTimes2Den : Nat := 2 ^ 56

/-- Embedding of `GetCollisionSeconds` (collision.go): computes
`sqrt(2 * lnFactor * M)` with `big.Float` arithmetic and converts the result
to an integer with `big.Float.Int`, which truncates toward zero.  The
`big.Float` multiplication and square root are modelled as exact real
arithmetic on the dyadic constant; for a real `x ≥ 0`, the truncation of
`Real.sqrt x` equals `Nat.sqrt` of the truncation of `x`, so the function is
the integer square root of the truncated product. -/
def GetCollisionSeconds (possiblePasswords : Nat) : Nat :=
  Nat.sqrt (possiblePasswords * lnFactorTimes2Num / lnFactorTimes2Den)

/-- Embedding of `oneYear` (collision.go). -/
def oneYear : Nat := 31536000

/-- Embedding of `log10years` (collision.go): `10 ^ pow` years, in seconds. -/
def log10years (pow : Nat) : Nat := 10 ^ pow * oneYear

/-- Element type of the `units` table (collision.go): a unit name and its
magnitude in seconds. -/
structure TimeUnit where
  name : String
  value : Nat

/-- Embedding of the `units` table (collision.go), in ascending order of
magnitude. -/
def units : List TimeUnit := [
  ⟨"second", 1⟩,
  ⟨"minute", 60⟩,
  ⟨"hour", 3600⟩,
  ⟨"day", 86400⟩,
  ⟨"year", oneYear⟩,
  ⟨"thousand years", log10years 3⟩,
  ⟨"million years", log10years 6⟩,
  ⟨"billion years", log10years 9⟩,
  ⟨"trillion years", log10years 12⟩,
  ⟨"quadrillion years", log10years 15⟩,
  ⟨"quintillion years", log10years 18⟩,
  ⟨"sextillion years", log10years 21⟩,
  ⟨"septillion years", log10years 24⟩,
  ⟨"octillion years", log10years 27⟩,
  ⟨"nonillion years", log10years 30⟩,
  ⟨"decillion years", log10years 33⟩,
  ⟨"undecillion years", log10years 36⟩,
  ⟨"duodecillion years", log10years 39⟩,
  ⟨"tredecillion years", log10years 42⟩,
  ⟨"quattuordecillion years", log10years 45⟩,
  ⟨"quindecillion years", log10years 48⟩,
  ⟨"sexdecillion years", log10years 51⟩,
  ⟨"septendecillion years", log10years 54⟩,
  ⟨"octodecillion years", log10years 57⟩,
  ⟨"novemdecillion years", log10years 60⟩,
  ⟨"vigintillion years", log10years 63⟩,
  ⟨"unvigintillion years", log10years 66⟩,
  ⟨"duovigintillion years", log10years 69⟩,
  ⟨"trevigintillion years", log10years 72⟩,
  ⟨"quattuorvigintillion years", log10years 75⟩,
  ⟨"quinvigintillion years", log10years 78⟩,
  ⟨"sexvigintillion years", log10years 81⟩,
  ⟨"septenvigintillion years", log10years 84⟩,
  ⟨"octovigintillion years", log10years 87⟩,
  ⟨"novemvigintillion years", log10years 90⟩,
  ⟨"trigintillion years", log10years 93⟩,
  ⟨"untrigintillion years", log10years 96⟩,
  ⟨"duotrigintillion years", log10years 99⟩,
  ⟨"googol years", log10years 100⟩]

/-- Embedding of the scanning loop of `FormatDuration` (collision.go): the
loop runs over `units` from the last entry down to the first, so it is the
structural scan of `units.reverse`; the first unit whose magnitude is `≤`
the input is used, and if none is, the loop falls through to the
`"less than a second"` return.  `strings.Contains(unitName, " ")` is the
space-character membership test on the name.  The source appends `"s"` to a
single-word unit name exactly when the displayed quotient equals 1. -/
def formatDurationLoop (seconds : Nat) : List TimeUnit → String
  | [] => "less than a second"
  | u :: rest =>
    if u.value ≤ seconds then
      let result := seconds / u.value
      let unitName :=
        if !u.name.data.contains ' ' then
          if result = 1 then u.name ++ "s" else u.name
        else u.name
      Nat.repr result ++ " " ++ unitName
    else
      formatDurationLoop seconds rest

/-- Embedding of `FormatDuration` (collision.go): inputs at or above
`999` googol years (in seconds) yield `"an eternity"`; otherwise the unit
scan runs from the largest unit downward. -/
def FormatDuration (seconds : Nat) : String :=
  if log10years 100 * 999 ≤ seconds then
    "an eternity"
  else
    formatDurationLoop seconds units.reverse

/-! ### Helper lemmas -/

/-- The reversed `units` table is sorted by non-increasing magnitude, which is
the order the `FormatDuration` loop scans it in. -/
theorem units_reverse_sorted :
    List.Pairwise (fun a b : TimeUnit => b.value ≤ a.value) units.reverse := by decide

/-- Structural specification of the `FormatDuration` scanning loop: on a list
sorted by non-increasing magnitude, either no unit fits below the input and
the loop returns `"less than a second"`, or the loop returns the quotient by
the largest fitting unit followed by that unit's (possibly pluralized)
name. -/
theorem formatDurationLoop_spec (seconds : Nat) (l : List TimeUnit)
    (hsorted : List.Pairwise (fun a b : TimeUnit => b.value ≤ a.value) l) :
    ((∀ u ∈ l, seconds < u.value) ∧
      formatDurationLoop seconds l = "less than a second") ∨
    (∃ u, u ∈ l ∧ u.value ≤ seconds ∧
      (∀ v ∈ l, v.value ≤ seconds → v.value ≤ u.value) ∧
      (formatDurationLoop seconds l = Nat.repr (seconds / u.value) ++ " " ++ u.name ∨
       formatDurationLoop seconds l =
         Nat.repr (seconds / u.value) ++ " " ++ (u.name ++ "s"))) := by
  induction l with
  | nil => exact Or.inl ⟨by simp, rfl⟩
  | cons u rest ih =>
    rcases List.pairwise_cons.mp hsorted with ⟨hu, hrest⟩
    by_cases h : u.value ≤ seconds
    · refine Or.inr ⟨u, List.mem_cons_self u rest, h, ?_, ?_⟩
      · intro v hv _
        rcases List.mem_cons.mp hv with rfl | hv'
        · exact le_refl _
        · exact hu v hv'
      · simp only [formatDurationLoop]
        rw [if_pos h]
        by_cases hsp : u.name.data.contains ' ' = true
        · have hmem : ' ' ∈ u.name.data := by simpa using hsp
          exact Or.inl (by simp [hmem])
        · have hmem : ' ' ∉ u.name.data := by simpa using hsp
          by_cases h1 : seconds / u.value = 1
          · exact Or.inr (by simp [hmem, h1])
          · exact Or.inl (by simp [hmem, h1])
    · have heq : formatDurationLoop seconds (u :: rest) = formatDurationLoop seconds rest := by
        simp only [formatDurationLoop]
        rw [if_neg h]
      rcases ih hrest with ⟨hall, hres⟩ | ⟨w, hw, hwle, hwmax, hwres⟩
      · refine Or.inl ⟨?_, heq ▸ hres⟩
        intro v hv
        rcases List.mem_cons.mp hv with rfl | hv'
        · exact Nat.lt_of_not_le h
        · exact hall v hv'
      · refine Or.inr ⟨w, List.mem_cons_of_mem u hw, hwle, ?_, heq ▸ hwres⟩
        intro v hv hvle
        rcases List.mem_cons.mp hv with rfl | hv'
        · exact absurd hvle h
        · exact hwmax v hv' hvle

/-! ### Claim theorems -/

/-- C1: the claim that `FormatDuration` pluralizes single-word unit names
exactly when the displayed quotient is not 1 fails on the code: the source
appends `"s"` exactly when the quotient equals 1 (the condition is inverted),
so `FormatDuration 1 = "1 seconds"`, `FormatDuration 2 = "2 second"`,
`FormatDuration 31536000 = "1 years"`, and
`FormatDuration 63072000 = "2 year"`. -/
theorem formatDuration_pluralization_inverted :
    FormatDuration 1 = "1 seconds" ∧ FormatDuration 2 = "2 second" ∧
    FormatDuration 31536000 = "1 years" ∧ FormatDuration 63072000 = "2 year" :=
  ⟨by decide, by decide, by decide, by decide⟩

/-- C2: the claim that `NormalizeCharset` deduplicates fails on the code: the
source only sorts, so the duplicate `'a'` in `"aab"` survives and
`NormalizeCharset "aab" ≠ NormalizeCharset "ba"`. -/
theorem normalizeCharset_keeps_duplicates :
    NormalizeCharset ['a', 'a', 'b'] = ['a', 'a', 'b'] ∧
    NormalizeCharset ['b', 'a'] = ['a', 'b'] ∧
    NormalizeCharset ['a', 'a', 'b'] ≠ NormalizeCharset ['b', 'a'] := by
  refine ⟨?_, ?_, ?_⟩ <;> simp [NormalizeCharset, slicesSort, List.mergeSort]

/-- The boolean order used by `slicesSort` is transitive. -/
theorem charLe_trans :
    ∀ a b c : Char, decide (a ≤ b) = true → decide (b ≤ c) = true →
      decide (a ≤ c) = true := by
  intro a b c h1 h2
  simp only [decide_eq_true_eq] at h1 h2 ⊢
  exact le_trans h1 h2

/-- The boolean order used by `slicesSort` is total. -/
theorem charLe_total :
    ∀ a b : Char, (decide (a ≤ b) || decide (b ≤ a)) = true := by
  intro a b
  simpa using le_total a b

/-- C4 counterexample: `GetCollisionSeconds 0` does not fault; the function
is total at 0 and returns the numeric result 0 (an empty product has an
exact zero square root, and `big.Float.Sqrt` only faults on negative
operands). -/
theorem getCollisionSeconds_zero_counterexample : GetCollisionSeconds 0 = 0 := by decide

/-- C4 amended: a zero-size possible-password space is not rejected;
`GetCollisionSeconds 0` returns 0, the immediate-collision degenerate
case. -/
theorem getCollisionSeconds_zero_degenerate : GetCollisionSeconds 0 = 0 := by decide

/-- C8: `GetCollisionSeconds` is monotonically non-decreasing in the size of
the possible-password space. -/
theorem getCollisionSeconds_monotone (M1 M2 : Nat) (h : M1 < M2) :
    GetCollisionSeconds M1 ≤ GetCollisionSeconds M2 :=
  Nat.sqrt_le_sqrt (Nat.div_le_div_right (Nat.mul_le_mul_right _ (Nat.le_of_lt h)))

/-- C8 witness: monotonicity instantiated at `M1 = 1 < M2 = 2`. -/
theorem getCollisionSeconds_monotone_witness :
    1 < 2 ∧ GetCollisionSeconds 1 ≤ GetCollisionSeconds 2 :=
  ⟨by decide, getCollisionSeconds_monotone 1 2 (by decide)⟩

/-- C9: `NormalizeCharset` is idempotent: sorting an already-sorted list
leaves it unchanged. -/
theorem normalizeCharset_idempotent (x : List Char) :
    NormalizeCharset (NormalizeCharset x) = NormalizeCharset x := by
  unfold NormalizeCharset slicesSort
  apply List.mergeSort_of_sorted
  exact List.sorted_mergeSort charLe_trans charLe_total x

/-- C3: the claim that `GetCollisionSeconds M` equals
`ceil(sqrt(2 * M * ln(1 / (1 - 0.01))))`, always rounded toward positive
infinity, fails at `M = 1`: the source converts the `big.Float` square root
with `Int`, which truncates toward zero, so the code yields 0 while the
ceiling of the exact value (a square root strictly between 0 and 1) is 1. -/
theorem getCollisionSeconds_truncates_below_ceil :
    GetCollisionSeconds 1 = 0 ∧
    ⌈Real.sqrt (2 * 1 * Real.log (1 / (1 - 0.01)))⌉ = 1 := by
  constructor
  · decide
  · have h100 : (1 : ℝ) / (1 - 0.01) = 100 / 99 := by norm_num
    rw [h100]
    have hpos : (0 : ℝ) < Real.log (100 / 99) := Real.log_pos (by norm_num)
    have hle : Real.log (100 / 99) ≤ 100 / 99 - 1 :=
      Real.log_le_sub_one_of_pos (by norm_num)
    have hargpos : (0 : ℝ) < 2 * 1 * Real.log (100 / 99) := by nlinarith
    have harg : (2 : ℝ) * 1 * Real.log (100 / 99) ≤ 1 := by nlinarith
    rw [Int.ceil_eq_iff]
    constructor
    · push_cast
      simpa using Real.sqrt_pos.mpr hargpos
    · push_cast
      exact Real.sqrt_le_one.mpr harg

/-- C5: for a non-empty charset and any requested length, `Generate` returns
a password of exactly that length whose characters all come from the
charset, whatever the random draws are. -/
theorem generate_length_and_membership (charset : List Char) (n : Nat)
    (oracle : Nat → Nat) (h : charset ≠ []) :
    ∃ p, Generate charset n oracle = some p ∧ p.length = n ∧
      ∀ c ∈ p, c ∈ charset := by
  have hlen : (slicesSort charset).length = charset.length :=
    List.length_mergeSort charset
  have hne : (slicesSort charset).length ≠ 0 := by
    rw [hlen]
    simpa using h
  by_cases hn : n = 0
  · subst hn
    exact ⟨[], by simp [Generate], rfl, by simp⟩
  · refine ⟨(List.range n).map
      (fun i => (slicesSort charset).getD (oracle i % (slicesSort charset).length) ' '),
      ?_, ?_, ?_⟩
    · simp [Generate, hn, hne]
    · simp
    · intro c hc
      simp only [List.mem_map, List.mem_range] at hc
      obtain ⟨i, _, rfl⟩ := hc
      have hidx : oracle i % (slicesSort charset).length < (slicesSort charset).length :=
        Nat.mod_lt _ (Nat.pos_of_ne_zero hne)
      rw [List.getD_eq_getElem _ _ hidx]
      have hmem := List.getElem_mem hidx
      unfold slicesSort at hmem
      exact List.mem_mergeSort.mp hmem

/-- C5 witness: `Generate` on the charset `['a', 'b']`, length 2, and the
identity oracle. -/
theorem generate_length_and_membership_witness :
    (['a', 'b'] : List Char) ≠ [] ∧
    ∃ p, Generate ['a', 'b'] 2 (fun i => i) = some p ∧ p.length = 2 ∧
      ∀ c ∈ p, c ∈ (['a', 'b'] : List Char) :=
  ⟨by decide, generate_length_and_membership ['a', 'b'] 2 (fun i => i) (by decide)⟩

/-- C6: for inputs between 1 and the eternity cutoff, `FormatDuration` picks
the largest unit whose magnitude is at most the input, displays the
truncating integer quotient, and follows it with that unit's name (possibly
pluralized); the input 0 yields `"less than a second"`. -/
theorem formatDuration_selects_largest_unit (s : Nat) (h1 : 1 ≤ s)
    (h2 : s < log10years 100 * 999) :
    (∃ u, u ∈ units ∧ u.value ≤ s ∧
      (∀ v ∈ units, v.value ≤ s → v.value ≤ u.value) ∧
      (FormatDuration s = Nat.repr (s / u.value) ++ " " ++ u.name ∨
       FormatDuration s = Nat.repr (s / u.value) ++ " " ++ (u.name ++ "s"))) ∧
    FormatDuration 0 = "less than a second" := by
  constructor
  · have hFD : FormatDuration s = formatDurationLoop s units.reverse := by
      unfold FormatDuration
      rw [if_neg (Nat.not_le.mpr h2)]
    rcases formatDurationLoop_spec s units.reverse units_reverse_sorted with
      ⟨hall, _⟩ | ⟨u, hu, hule, hmax, hres⟩
    · exfalso
      have hsec : (⟨"second", 1⟩ : TimeUnit) ∈ units.reverse := by
        rw [List.mem_reverse]
        exact List.mem_cons_self _ _
      have hlt : s < 1 := hall _ hsec
      omega
    · refine ⟨u, List.mem_reverse.mp hu, hule, ?_, ?_⟩
      · intro v hv hvle
        exact hmax v (List.mem_reverse.mpr hv) hvle
      · rw [hFD]
        exact hres
  · decide

/-- C6 witness: the selection property instantiated at 61 seconds (one
minute, remainder discarded). -/
theorem formatDuration_selects_largest_unit_witness :
    (1 ≤ 61 ∧ 61 < log10years 100 * 999) ∧
    ((∃ u, u ∈ units ∧ u.value ≤ 61 ∧
      (∀ v ∈ units, v.value ≤ 61 → v.value ≤ u.value) ∧
      (FormatDuration 61 = Nat.repr (61 / u.value) ++ " " ++ u.name ∨
       FormatDuration 61 = Nat.repr (61 / u.value) ++ " " ++ (u.name ++ "s"))) ∧
    FormatDuration 0 = "less than a second") :=
  ⟨⟨by decide, by decide⟩,
    formatDuration_selects_largest_unit 61 (by decide) (by decide)⟩

/-- No unit name (pluralized or not) is a suffix of `"an eternity"`, so no
output of the scanning loop can collide with the eternity string. -/
theorem units_names_no_eternity :
    ∀ u ∈ units, ¬(u.name.data <:+ "an eternity".data) ∧
      ¬((u.name ++ "s").data <:+ "an eternity".data) := by decide

/-- C7: `FormatDuration` returns `"an eternity"` exactly for inputs at or
above 999 googol years (in seconds), and never below that cutoff. -/
theorem formatDuration_eternity_cutoff (s : Nat) :
    (log10years 100 * 999 ≤ s → FormatDuration s = "an eternity") ∧
    (s < log10years 100 * 999 → FormatDuration s ≠ "an eternity") := by
  constructor
  · intro h
    unfold FormatDuration
    rw [if_pos h]
  · intro h
    unfold FormatDuration
    rw [if_neg (Nat.not_le.mpr h)]
    rcases formatDurationLoop_spec s units.reverse units_reverse_sorted with
      ⟨_, hres⟩ | ⟨u, hu, _, _, hres | hres⟩
    · rw [hres]
      decide
    · rw [hres]
      intro heq
      have hdata := congrArg String.data heq
      rw [String.data_append] at hdata
      exact (units_names_no_eternity u (List.mem_reverse.mp hu)).1 ⟨_, hdata⟩
    · rw [hres]
      intro heq
      have hdata := congrArg String.data heq
      rw [String.data_append] at hdata
      exact (units_names_no_eternity u (List.mem_reverse.mp hu)).2 ⟨_, hdata⟩

/-- C7 witness: the cutoff behavior at the cutoff itself and at 61
seconds. -/
theorem formatDuration_eternity_cutoff_witness :
    FormatDuration (log10years 100 * 999) = "an eternity" ∧
    FormatDuration 61 ≠ "an eternity" :=
  ⟨(formatDuration_eternity_cutoff (log10years 100 * 999)).1 (le_refl _),
    (formatDuration_eternity_cutoff 61).2 (by decide)⟩

/-- C10: requesting a zero-length password succeeds with the empty result
for every charset and oracle (the sampling loop is never entered), and the
failure case of `Generate` happens exactly when the length is at least 1 and
the charset is empty. -/
theorem generate_zero_length (charset : List Char) (oracle : Nat → Nat) :
    Generate charset 0 oracle = some [] ∧
    ∀ n : Nat, (Generate charset n oracle = none ↔ 1 ≤ n ∧ charset = []) := by
  have hlen : (slicesSort charset).length = charset.length :=
    List.length_mergeSort charset
  constructor
  · simp [Generate]
  · intro n
    constructor
    · intro hnone
      by_cases hn : n = 0
      · subst hn
        simp [Generate] at hnone
      · refine ⟨Nat.one_le_iff_ne_zero.mpr hn, ?_⟩
        by_cases hcs : (slicesSort charset).length = 0
        · rw [hlen] at hcs
          exact List.length_eq_zero.mp hcs
        · simp [Generate, hn, hcs] at hnone
    · rintro ⟨hle, rfl⟩
      have hn : n ≠ 0 := Nat.one_le_iff_ne_zero.mp hle
      simp [Generate, hn, slicesSort]

end Genpass
